import Mathlib

/-!
Formal model of the matchmaking/session engine in `src/bot.py` of the
anonymous-chat bot: the waiting queue, the pairing table (`sessions`),
state persistence (`save_state`/`load_state`), the per-user rate limiter
(`rate_limited`) and the non-command message dispatcher
(`handle_all_messages`).

Modelling conventions:
  * Python dicts are insertion-ordered association lists (`List (Int × v)`)
    with the update/removal operations of CPython dicts;
  * Python lists of user ids are `List Int`;
  * Python strings are `List Char`;
  * JSON values are an inductive `Json` (numbers restricted to integers,
    which covers everything the claims touch);
  * `time.time()` values are rationals;
  * Python truthiness (`if other:`, `if last and ...`, `if GROUP_ID and ...`)
    is translated explicitly, so a stored `0` counts as falsy exactly as in
    CPython.
-/

namespace Bot

/-- Association-list lookup at the first matching key. Models `d.get(k)` /
`d[k]` / `k in d` on a Python dict (whose keys are unique, so first match
is the match). -/
def alookup {α : Type} (k : Int) : List (Int × α) → Option α
  | [] => none
  | (a, b) :: t => if a = k then some b else alookup k t

/-- Association-list update. Models `d[k] = v` on a Python dict: replaces
the value at an existing key in place, otherwise appends at the end,
matching the insertion order of CPython dicts. -/
def ainsert {α : Type} (k : Int) (v : α) : List (Int × α) → List (Int × α)
  | [] => [(k, v)]
  | (a, b) :: t => if a = k then (k, v) :: t else (a, b) :: ainsert k v t

/-- Association-list removal. Models the effect of `d.pop(k, None)` on `d`. -/
def aremove {α : Type} (k : Int) : List (Int × α) → List (Int × α)
  | [] => []
  | (a, b) :: t => if a = k then t else (a, b) :: aremove k t

/-- The key list of an association list. -/
def keys {α : Type} (l : List (Int × α)) : List Int := l.map Prod.fst

/-- Removal of the first occurrence of an element. Models the effect of
`xs.remove(x)` on a Python list (guarded by `if x in xs:` in the source,
which makes the net effect total). -/
def removeFirst (x : Int) : List Int → List Int
  | [] => []
  | a :: t => if a = x then t else a :: removeFirst x t

section AssocLemmas

variable {α : Type}

@[simp] theorem keys_nil : keys ([] : List (Int × α)) = [] := rfl

@[simp] theorem keys_cons (a : Int) (b : α) (t : List (Int × α)) :
    keys ((a, b) :: t) = a :: keys t := rfl

@[simp] theorem keys_append (l₁ l₂ : List (Int × α)) :
    keys (l₁ ++ l₂) = keys l₁ ++ keys l₂ := List.map_append _ _ _

theorem alookup_eq_none_iff (k : Int) (l : List (Int × α)) :
    alookup k l = none ↔ k ∉ keys l := by
  induction l with
  | nil => simp [alookup]
  | cons p t ih =>
    obtain ⟨a, b⟩ := p
    by_cases h : a = k
    · subst h
      simp [alookup]
    · rw [keys_cons]
      simp only [alookup, if_neg h, List.mem_cons]
      rw [ih]
      constructor
      · intro h1 h2
        rcases h2 with h2 | h2
        · exact h h2.symm
        · exact h1 h2
      · exact fun h1 hm => h1 (Or.inr hm)

theorem mem_of_alookup_eq_some {k : Int} {v : α} {l : List (Int × α)}
    (h : alookup k l = some v) : (k, v) ∈ l := by
  induction l with
  | nil => simp [alookup] at h
  | cons p t ih =>
    obtain ⟨a, b⟩ := p
    by_cases ha : a = k
    · subst ha
      simp [alookup] at h
      simp [h]
    · simp [alookup, ha] at h
      exact List.mem_cons_of_mem _ (ih h)

theorem mem_keys_of_alookup_eq_some {k : Int} {v : α} {l : List (Int × α)}
    (h : alookup k l = some v) : k ∈ keys l := by
  have := mem_of_alookup_eq_some h
  exact List.mem_map_of_mem Prod.fst this

theorem ainsert_of_not_mem {k : Int} (v : α) {l : List (Int × α)}
    (h : k ∉ keys l) : ainsert k v l = l ++ [(k, v)] := by
  induction l with
  | nil => simp [ainsert]
  | cons p t ih =>
    obtain ⟨a, b⟩ := p
    rw [keys_cons] at h
    simp only [List.mem_cons] at h
    push_neg at h
    simp only [ainsert, if_neg (Ne.symm h.1), ih h.2, List.cons_append]

theorem alookup_append_of_some {k : Int} {v : α} {l₁ : List (Int × α)}
    (l₂ : List (Int × α)) (h : alookup k l₁ = some v) :
    alookup k (l₁ ++ l₂) = some v := by
  induction l₁ with
  | nil => simp [alookup] at h
  | cons p t ih =>
    obtain ⟨a, b⟩ := p
    by_cases ha : a = k
    · subst ha
      simp [alookup] at h ⊢
      exact h
    · simp [alookup, ha] at h ⊢
      exact ih h

theorem alookup_append_of_none {k : Int} {l₁ : List (Int × α)}
    (l₂ : List (Int × α)) (h : alookup k l₁ = none) :
    alookup k (l₁ ++ l₂) = alookup k l₂ := by
  induction l₁ with
  | nil => simp
  | cons p t ih =>
    obtain ⟨a, b⟩ := p
    by_cases ha : a = k
    · subst ha
      simp [alookup] at h
    · simp [alookup, ha] at h ⊢
      exact ih h

theorem alookup_ainsert_self (k : Int) (v : α) (l : List (Int × α)) :
    alookup k (ainsert k v l) = some v := by
  induction l with
  | nil => simp [ainsert, alookup]
  | cons p t ih =>
    obtain ⟨a, b⟩ := p
    by_cases ha : a = k
    · subst ha
      simp [ainsert, alookup]
    · simp [ainsert, alookup, ha, ih]

theorem alookup_ainsert_of_ne {a k : Int} (v : α) (l : List (Int × α))
    (h : a ≠ k) : alookup a (ainsert k v l) = alookup a l := by
  induction l with
  | nil => simp [ainsert, alookup, Ne.symm h]
  | cons p t ih =>
    obtain ⟨c, d⟩ := p
    by_cases hc : c = k
    · subst hc
      simp [ainsert, alookup, Ne.symm h]
    · simp [ainsert, alookup, hc, ih]

theorem aremove_sublist (k : Int) (l : List (Int × α)) :
    (aremove k l).Sublist l := by
  induction l with
  | nil => simp [aremove]
  | cons p t ih =>
    obtain ⟨a, b⟩ := p
    by_cases ha : a = k
    · simp [aremove, ha]
    · simpa [aremove, ha] using ih.cons₂ (a, b)

theorem aremove_of_not_mem {k : Int} {l : List (Int × α)}
    (h : k ∉ keys l) : aremove k l = l := by
  induction l with
  | nil => simp [aremove]
  | cons p t ih =>
    obtain ⟨a, b⟩ := p
    rw [keys_cons] at h
    simp only [List.mem_cons] at h
    push_neg at h
    simp only [aremove, if_neg (Ne.symm h.1), ih h.2]

theorem alookup_aremove_of_ne {a k : Int} (l : List (Int × α))
    (h : a ≠ k) : alookup a (aremove k l) = alookup a l := by
  induction l with
  | nil => simp [aremove]
  | cons p t ih =>
    obtain ⟨c, d⟩ := p
    by_cases hc : c = k
    · subst hc
      simp [aremove, alookup, Ne.symm h]
    · simp [aremove, alookup, hc, ih]

theorem not_mem_keys_aremove {k : Int} {l : List (Int × α)}
    (hnd : (keys l).Nodup) : k ∉ keys (aremove k l) := by
  induction l with
  | nil => simp [aremove, keys]
  | cons p t ih =>
    obtain ⟨a, b⟩ := p
    simp [keys] at hnd
    by_cases ha : a = k
    · subst ha
      simpa [aremove, keys] using hnd.1
    · simp [aremove, ha, keys]
      refine ⟨fun h' => ha h'.symm, ?_⟩
      simpa [keys] using ih hnd.2

theorem alookup_aremove_self {k : Int} {l : List (Int × α)}
    (hnd : (keys l).Nodup) : alookup k (aremove k l) = none :=
  (alookup_eq_none_iff _ _).2 (not_mem_keys_aremove hnd)

theorem keys_aremove_sublist (k : Int) (l : List (Int × α)) :
    (keys (aremove k l)).Sublist (keys l) :=
  (aremove_sublist k l).map Prod.fst

theorem alookup_aremove_of_none {a k : Int} {l : List (Int × α)}
    (h : alookup a l = none) : alookup a (aremove k l) = none := by
  rw [alookup_eq_none_iff] at h ⊢
  exact fun hmem => h ((keys_aremove_sublist k l).subset hmem)

theorem removeFirst_sublist (x : Int) (l : List Int) :
    (removeFirst x l).Sublist l := by
  induction l with
  | nil => simp [removeFirst]
  | cons a t ih =>
    by_cases ha : a = x
    · simp [removeFirst, ha]
    · simpa [removeFirst, ha] using ih.cons₂ a

theorem not_mem_removeFirst_self {x : Int} {l : List Int}
    (h : l.Nodup) : x ∉ removeFirst x l := by
  induction l with
  | nil => simp [removeFirst]
  | cons a t ih =>
    simp at h
    by_cases ha : a = x
    · subst ha
      simpa [removeFirst] using h.1
    · simp [removeFirst, ha]
      exact ⟨fun h' => ha h'.symm, ih h.2⟩

theorem removeFirst_of_not_mem {x : Int} {l : List Int}
    (h : x ∉ l) : removeFirst x l = l := by
  induction l with
  | nil => simp [removeFirst]
  | cons a t ih =>
    simp only [List.mem_cons] at h
    push_neg at h
    simp only [removeFirst, if_neg (Ne.symm h.1), ih h.2]

end AssocLemmas

/-- The mutable engine state of `bot.py`: the waiting `queue` and the
pairing table `sessions` (both persisted). -/
structure BotState where
  queue : List Int
  sessions : List (Int × Int)
deriving DecidableEq

/-- Source `pair(a, b)`: `sessions[a] = b` then `sessions[b] = a`
(`save_state()` afterwards has no effect on the in-memory state). -/
def pair (a b : Int) (sess : List (Int × Int)) : List (Int × Int) :=
  ainsert b a (ainsert a b sess)

/-- Source `unpair(uid)`:
`other = sessions.pop(uid, None); if other: sessions.pop(other, None);
return other`. Note the Python truthiness of `if other:` — a partner id
`0` is falsy, so its reverse entry is NOT removed. -/
def unpair (uid : Int) (st : BotState) : Option Int × BotState :=
  let other := alookup uid st.sessions
  let s1 := aremove uid st.sessions
  let s2 := match other with
    | some o => if o = 0 then s1 else aremove o s1
    | none => s1
  (other, ⟨st.queue, s2⟩)

/-- Source `find_partner(uid)`: return the existing partner if paired;
else remove `uid` from the queue if present; then either pop the queue
head and pair with it, or enqueue `uid`. -/
def find_partner (uid : Int) (st : BotState) : Option Int × BotState :=
  match alookup uid st.sessions with
  | some p => (some p, st)
  | none =>
    match removeFirst uid st.queue with
    | other :: rest => (some other, ⟨rest, pair uid other st.sessions⟩)
    | [] => (none, ⟨[uid], st.sessions⟩)

/-- The end-session operation of `cmd_anon_stop`: `unpair(uid)` followed by
`if uid in queue: queue.remove(uid)`. -/
def endSession (uid : Int) (st : BotState) : Option Int × BotState :=
  let r := unpair uid st
  (r.1, ⟨removeFirst uid r.2.queue, r.2.sessions⟩)

/-- A call of the session engine: a connect intent (`find_partner`, claim
name `requestPartner`) or an end-session intent (`endSession`). -/
inductive Op where
  | request (uid : Int)
  | stop (uid : Int)
deriving DecidableEq

/-- The user id performing an operation. -/
def Op.user : Op → Int
  | .request u => u
  | .stop u => u

/-- One engine step. -/
def stepOp (st : BotState) (op : Op) : BotState :=
  match op with
  | .request u => (find_partner u st).2
  | .stop u => (endSession u st).2

/-- The empty startup state (`queue = []`, `sessions = {}`). -/
def initState : BotState := ⟨[], []⟩

/-- Running a call sequence from the empty state. -/
def run (ops : List Op) : BotState := ops.foldl stepOp initState

/-- Structural invariants that hold for EVERY call sequence, with no
restriction on user ids: both containers duplicate-free, the pairing
table irreflexive, queue and pairing-table keys disjoint. -/
structure WeakInv (st : BotState) : Prop where
  qnd : st.queue.Nodup
  knd : (keys st.sessions).Nodup
  irr : ∀ p ∈ st.sessions, p.1 ≠ p.2
  dis : ∀ a ∈ st.queue, alookup a st.sessions = none

/-- Full invariant, maintained when every id that ever enters the engine is
nonzero: additionally the pairing table is symmetric and all stored ids are
nonzero. -/
structure StrongInv (st : BotState) : Prop where
  weak : WeakInv st
  sym : ∀ p ∈ st.sessions, alookup p.2 st.sessions = some p.1
  snz : ∀ p ∈ st.sessions, p.1 ≠ 0 ∧ p.2 ≠ 0
  qnz : ∀ a ∈ st.queue, a ≠ 0

theorem weakInv_init : WeakInv initState := by
  constructor <;> simp [initState]

theorem strongInv_init : StrongInv initState := by
  refine ⟨weakInv_init, ?_, ?_, ?_⟩ <;> simp [initState]

theorem find_partner_eq_of_paired {uid p : Int} {st : BotState}
    (hl : alookup uid st.sessions = some p) :
    find_partner uid st = (some p, st) := by
  simp [find_partner, hl]

theorem find_partner_eq_enqueue {uid : Int} {st : BotState}
    (hl : alookup uid st.sessions = none)
    (hq : removeFirst uid st.queue = []) :
    find_partner uid st = (none, ⟨[uid], st.sessions⟩) := by
  simp [find_partner, hl, hq]

theorem find_partner_eq_pop {uid other : Int} {rest : List Int} {st : BotState}
    (hl : alookup uid st.sessions = none)
    (hq : removeFirst uid st.queue = other :: rest) :
    find_partner uid st = (some other, ⟨rest, pair uid other st.sessions⟩) := by
  simp [find_partner, hl, hq]

theorem endSession_eq (uid : Int) (st : BotState) :
    endSession uid st =
      (alookup uid st.sessions,
       ⟨removeFirst uid st.queue,
        match alookup uid st.sessions with
        | some o => if o = 0 then aremove uid st.sessions
                    else aremove o (aremove uid st.sessions)
        | none => aremove uid st.sessions⟩) := by
  simp [endSession, unpair]

/-- The key fact behind pairing: both new entries go to the end of the
table when neither participant was paired. -/
theorem pair_eq_append {uid other : Int} {sess : List (Int × Int)}
    (huk : uid ∉ keys sess) (hok : other ∉ keys sess) (huo : uid ≠ other) :
    pair uid other sess = sess ++ [(uid, other), (other, uid)] := by
  unfold pair
  rw [ainsert_of_not_mem _ huk, ainsert_of_not_mem]
  · simp
  · simp only [keys_append, List.mem_append]
    push_neg
    exact ⟨hok, by simp [Ne.symm huo]⟩

theorem weakInv_queue_sublist {q' : List Int} {st : BotState}
    (h : WeakInv st) (hs : q'.Sublist st.queue) :
    WeakInv ⟨q', st.sessions⟩ := by
  refine ⟨h.qnd.sublist hs, h.knd, h.irr, ?_⟩
  exact fun a ha => h.dis a (hs.subset ha)

theorem weakInv_sessions_aremove (k : Int) {st : BotState}
    (h : WeakInv st) : WeakInv ⟨st.queue, aremove k st.sessions⟩ := by
  refine ⟨h.qnd, h.knd.sublist (keys_aremove_sublist k _), ?_, ?_⟩
  · exact fun p hp => h.irr p ((aremove_sublist k _).subset hp)
  · exact fun a ha => alookup_aremove_of_none (h.dis a ha)

theorem weakInv_find_partner (uid : Int) {st : BotState} (h : WeakInv st) :
    WeakInv (find_partner uid st).2 := by
  rcases hl : alookup uid st.sessions with _ | p
  · rcases hq : removeFirst uid st.queue with _ | ⟨other, rest⟩
    · rw [find_partner_eq_enqueue hl hq]
      refine ⟨by simp, h.knd, h.irr, ?_⟩
      intro a ha
      simp at ha
      subst ha
      exact hl
    · rw [find_partner_eq_pop hl hq]
      have hsub : (other :: rest).Sublist st.queue := hq ▸ removeFirst_sublist uid st.queue
      have hrest : rest.Sublist st.queue :=
        (List.sublist_cons_self other rest).trans hsub
      have hqnd : (other :: rest).Nodup := h.qnd.sublist hsub
      have hother_mem : other ∈ st.queue := hsub.subset (by simp)
      have huid_notin : uid ∉ (other :: rest) := hq ▸ not_mem_removeFirst_self h.qnd
      have huo : uid ≠ other := fun he => huid_notin (by simp [he])
      have huid_rest : uid ∉ rest := fun hm => huid_notin (by simp [hm])
      have hother_rest : other ∉ rest := (List.nodup_cons.mp hqnd).1
      have hod : alookup other st.sessions = none := h.dis other hother_mem
      have hok : other ∉ keys st.sessions := (alookup_eq_none_iff _ _).1 hod
      have huk : uid ∉ keys st.sessions := (alookup_eq_none_iff _ _).1 hl
      rw [pair_eq_append huk hok huo]
      refine ⟨(List.nodup_cons.mp hqnd).2, ?_, ?_, ?_⟩
      · simp only [keys_append, keys_cons, keys_nil]
        rw [List.nodup_append]
        refine ⟨h.knd, by simp [huo], ?_⟩
        intro a ha hmem
        simp only [List.mem_cons, List.not_mem_nil, or_false] at hmem
        rcases hmem with he | he
        · exact huk (he ▸ ha)
        · exact hok (he ▸ ha)
      · intro p hp
        rcases List.mem_append.mp hp with hp | hp
        · exact h.irr p hp
        · simp only [List.mem_cons, List.not_mem_nil, or_false] at hp
          rcases hp with hp | hp
          · rw [hp]
            exact huo
          · rw [hp]
            exact Ne.symm huo
      · intro a ha
        have haq : a ∈ st.queue := hrest.subset ha
        have hau : a ≠ uid := fun he => huid_rest (he ▸ ha)
        have hao : a ≠ other := fun he => hother_rest (he ▸ ha)
        rw [alookup_append_of_none _ (h.dis a haq)]
        simp [alookup, Ne.symm hau, Ne.symm hao]
  · rw [find_partner_eq_of_paired hl]
    exact h

theorem weakInv_endSession (uid : Int) {st : BotState} (h : WeakInv st) :
    WeakInv (endSession uid st).2 := by
  rw [endSession_eq]
  have hq : (removeFirst uid st.queue).Sublist st.queue := removeFirst_sublist uid st.queue
  have h1 : WeakInv ⟨st.queue, aremove uid st.sessions⟩ := weakInv_sessions_aremove uid h
  rcases hl : alookup uid st.sessions with _ | o
  · exact weakInv_queue_sublist h1 hq
  · by_cases ho : o = 0
    · simp only [ho, if_pos rfl]
      exact weakInv_queue_sublist h1 hq
    · simp only [if_neg ho]
      exact weakInv_queue_sublist (weakInv_sessions_aremove o h1) hq

theorem weakInv_stepOp (st : BotState) (op : Op) (h : WeakInv st) :
    WeakInv (stepOp st op) := by
  cases op with
  | request u => exact weakInv_find_partner u h
  | stop u => exact weakInv_endSession u h

theorem weakInv_run (ops : List Op) : WeakInv (run ops) := by
  suffices h : ∀ st, WeakInv st → WeakInv (ops.foldl stepOp st) from
    h initState weakInv_init
  induction ops with
  | nil => exact fun st h => h
  | cons op t ih => exact fun st h => ih _ (weakInv_stepOp st op h)

theorem strongInv_find_partner (uid : Int) {st : BotState} (h : StrongInv st)
    (hu : uid ≠ 0) : StrongInv (find_partner uid st).2 := by
  rcases hl : alookup uid st.sessions with _ | p
  · rcases hq : removeFirst uid st.queue with _ | ⟨other, rest⟩
    · have hw := weakInv_find_partner uid h.weak
      rw [find_partner_eq_enqueue hl hq] at hw ⊢
      refine ⟨hw, h.sym, h.snz, ?_⟩
      intro a ha
      simp at ha
      subst ha
      exact hu
    · have hw := weakInv_find_partner uid h.weak
      rw [find_partner_eq_pop hl hq] at hw ⊢
      have hsub : (other :: rest).Sublist st.queue := hq ▸ removeFirst_sublist uid st.queue
      have hrest : rest.Sublist st.queue :=
        (List.sublist_cons_self other rest).trans hsub
      have hother_mem : other ∈ st.queue := hsub.subset (by simp)
      have huid_notin : uid ∉ (other :: rest) := hq ▸ not_mem_removeFirst_self h.weak.qnd
      have huo : uid ≠ other := fun he => huid_notin (by simp [he])
      have honz : other ≠ 0 := h.qnz other hother_mem
      have hod : alookup other st.sessions = none := h.weak.dis other hother_mem
      have hok : other ∉ keys st.sessions := (alookup_eq_none_iff _ _).1 hod
      have huk : uid ∉ keys st.sessions := (alookup_eq_none_iff _ _).1 hl
      have hpair : pair uid other st.sessions =
          st.sessions ++ [(uid, other), (other, uid)] :=
        pair_eq_append huk hok huo
      refine ⟨hw, ?_, ?_, ?_⟩
      · intro p hp
        rw [hpair] at hp ⊢
        rcases List.mem_append.mp hp with hp | hp
        · exact alookup_append_of_some _ (h.sym p hp)
        · simp only [List.mem_cons, List.not_mem_nil, or_false] at hp
          rcases hp with hp | hp
          · rw [hp]
            rw [alookup_append_of_none _ hod]
            simp [alookup, huo]
          · rw [hp]
            rw [alookup_append_of_none _ hl]
            simp [alookup]
      · intro p hp
        rw [hpair] at hp
        rcases List.mem_append.mp hp with hp | hp
        · exact h.snz p hp
        · simp only [List.mem_cons, List.not_mem_nil, or_false] at hp
          rcases hp with hp | hp
          · rw [hp]
            exact ⟨hu, honz⟩
          · rw [hp]
            exact ⟨honz, hu⟩
      · exact fun a ha => h.qnz a (hrest.subset ha)
  · rw [find_partner_eq_of_paired hl]
    exact h

theorem strongInv_endSession (uid : Int) {st : BotState} (h : StrongInv st) :
    StrongInv (endSession uid st).2 := by
  have hw := weakInv_endSession uid h.weak
  rw [endSession_eq] at hw ⊢
  have hqsub : (removeFirst uid st.queue).Sublist st.queue := removeFirst_sublist uid st.queue
  rcases hl : alookup uid st.sessions with _ | o
  · simp only [hl] at hw ⊢
    have huk : uid ∉ keys st.sessions := (alookup_eq_none_iff _ _).1 hl
    rw [aremove_of_not_mem huk] at hw ⊢
    exact ⟨hw, h.sym, h.snz, fun a ha => h.qnz a (hqsub.subset ha)⟩
  · have hmem : (uid, o) ∈ st.sessions := mem_of_alookup_eq_some hl
    have ho : o ≠ 0 := (h.snz _ hmem).2
    simp only [hl, if_neg ho] at hw ⊢
    have hknd1 : (keys (aremove uid st.sessions)).Nodup :=
      h.weak.knd.sublist (keys_aremove_sublist uid _)
    refine ⟨hw, ?_, ?_, fun a ha => h.qnz a (hqsub.subset ha)⟩
    · intro p hp
      have hp1 : p ∈ aremove uid st.sessions := (aremove_sublist o _).subset hp
      have hp0 : p ∈ st.sessions := (aremove_sublist uid _).subset hp1
      have hpo : p.1 ≠ o := by
        intro he
        exact not_mem_keys_aremove hknd1
          (he ▸ List.mem_map_of_mem Prod.fst hp)
      have hpu : p.1 ≠ uid := by
        intro he
        exact not_mem_keys_aremove h.weak.knd
          (he ▸ List.mem_map_of_mem Prod.fst hp1)
      have hs := h.sym p hp0
      have hp2u : p.2 ≠ uid := by
        intro he
        rw [he, hl] at hs
        injection hs with h2
        exact hpo h2.symm
      have hp2o : p.2 ≠ o := by
        intro he
        rw [he] at hs
        have hso := h.sym (uid, o) hmem
        rw [hs] at hso
        exact hpu (by injection hso)
      rw [alookup_aremove_of_ne _ hp2o, alookup_aremove_of_ne _ hp2u]
      exact hs
    · intro p hp
      exact h.snz p ((aremove_sublist uid _).subset ((aremove_sublist o _).subset hp))

theorem strongInv_stepOp (st : BotState) (op : Op) (h : StrongInv st)
    (hz : op.user ≠ 0) : StrongInv (stepOp st op) := by
  cases op with
  | request u => exact strongInv_find_partner u h hz
  | stop u => exact strongInv_endSession u h

theorem strongInv_run (ops : List Op) (hz : ∀ op ∈ ops, op.user ≠ 0) :
    StrongInv (run ops) := by
  suffices h : ∀ st, StrongInv st → StrongInv (ops.foldl stepOp st) from
    h initState strongInv_init
  induction ops with
  | nil => exact fun st h => h
  | cons op t ih =>
    intro st h
    exact ih (fun o ho => hz o (List.mem_cons_of_mem op ho)) _
      (strongInv_stepOp st op h (hz op (List.mem_cons_self op t)))

/-- C1 (amended): for every sequence of requestPartner/endSession calls
from the empty state, the Pairing Table stays irreflexive and no
identifier is simultaneously in the Waiting Queue and a key of the
Pairing Table — for EVERY choice of identifiers, 0 included; symmetry
holds provided every identifier in the sequence is nonzero. (As
originally stated — symmetry also for identifier 0 — the claim is false,
see the counterexample.) -/
theorem c1_pairing_table_invariants (ops : List Op) :
    (∀ p ∈ (run ops).sessions, p.1 ≠ p.2) ∧
    (∀ a ∈ (run ops).queue, alookup a (run ops).sessions = none) ∧
    ((∀ op ∈ ops, op.user ≠ 0) →
      ∀ p ∈ (run ops).sessions, alookup p.2 (run ops).sessions = some p.1) :=
  ⟨(weakInv_run ops).irr, (weakInv_run ops).dis,
    fun hz => (strongInv_run ops hz).sym⟩

/-- C1 counterexample: user 0 requests a partner, user 5 requests and is
paired with 0, then 5 ends the session. Because `unpair` guards the
reverse removal with the Python-truthiness test `if other:` and the
partner id 0 is falsy, the entry 0 ↦ 5 survives while 5 has no entry:
the Pairing Table is no longer symmetric. -/
theorem c1_counterexample :
    (0, 5) ∈ (run [Op.request 0, Op.request 5, Op.stop 5]).sessions ∧
    alookup 5 (run [Op.request 0, Op.request 5, Op.stop 5]).sessions = none := by
  decide

theorem c1_witness :
    (∀ op ∈ ([Op.request 1, Op.request 2, Op.stop 1] : List Op), op.user ≠ 0) ∧
    (∀ p ∈ (run [Op.request 1, Op.request 2, Op.stop 1]).sessions,
      alookup p.2 (run [Op.request 1, Op.request 2, Op.stop 1]).sessions = some p.1) :=
  ⟨by decide, (c1_pairing_table_invariants _).2.2 (by decide)⟩

/-- C2: a requestPartner call by a user who is not paired and not queued,
while the queue is non-empty, pairs the caller with the HEAD of the queue
and leaves exactly the tail queued: matching is strictly FIFO, so a user
who entered the queue earlier (and was never removed) is matched before
any later entrant. -/
theorem c2_fifo_head_match (uid hd : Int) (t : List Int) (st : BotState)
    (hp : alookup uid st.sessions = none)
    (hq : uid ∉ st.queue)
    (hqueue : st.queue = hd :: t) :
    find_partner uid st = (some hd, ⟨t, pair uid hd st.sessions⟩) := by
  have hrf : removeFirst uid st.queue = hd :: t := by
    rw [removeFirst_of_not_mem hq, hqueue]
  exact find_partner_eq_pop hp hrf

theorem c2_witness :
    alookup 9 (⟨[4, 7], []⟩ : BotState).sessions = none ∧
    (9 : Int) ∉ (⟨[4, 7], []⟩ : BotState).queue ∧
    find_partner 9 ⟨[4, 7], []⟩ = (some 4, ⟨[7], pair 9 4 []⟩) :=
  ⟨by decide, by decide,
    c2_fifo_head_match 9 4 [7] ⟨[4, 7], []⟩ (by decide) (by decide) rfl⟩

/-- C3 (amended): on a state satisfying the pairing-table invariants in
which every stored partner id is NONZERO, endSession(U) returns the former
partner (nothing if U had none), removes both pairing entries, removes U
from the queue, and leaves neither U nor the former partner paired or
queued. (As originally stated — for every identifier, hence also a stored
partner id 0 — the claim is false, see the counterexample.) -/
theorem c3_endSession_spec (uid : Int) (st : BotState)
    (hknd : (keys st.sessions).Nodup)
    (hqnd : st.queue.Nodup)
    (hsym : ∀ p ∈ st.sessions, alookup p.2 st.sessions = some p.1)
    (hdis : ∀ a ∈ st.queue, alookup a st.sessions = none)
    (hnz : ∀ p ∈ st.sessions, p.2 ≠ 0) :
    (endSession uid st).1 = alookup uid st.sessions ∧
    (endSession uid st).2.queue = removeFirst uid st.queue ∧
    uid ∉ (endSession uid st).2.queue ∧
    alookup uid (endSession uid st).2.sessions = none ∧
    (alookup uid st.sessions = none → (endSession uid st).2.sessions = st.sessions) ∧
    (∀ p, alookup uid st.sessions = some p →
      alookup p (endSession uid st).2.sessions = none ∧
      p ∉ (endSession uid st).2.queue) := by
  rw [endSession_eq]
  rcases hl : alookup uid st.sessions with _ | o
  · refine ⟨rfl, rfl, not_mem_removeFirst_self hqnd, ?_, ?_, ?_⟩
    · exact alookup_aremove_self hknd
    · intro _
      exact aremove_of_not_mem ((alookup_eq_none_iff _ _).1 hl)
    · intro p hp
      simp at hp
  · have hmem : (uid, o) ∈ st.sessions := mem_of_alookup_eq_some hl
    have ho : o ≠ 0 := hnz _ hmem
    simp only [if_neg ho]
    refine ⟨trivial, trivial, not_mem_removeFirst_self hqnd, ?_, ?_, ?_⟩
    · exact alookup_aremove_of_none (alookup_aremove_self hknd)
    · intro hcontra
      simp at hcontra
    · intro p hp
      injection hp with hp
      subst hp
      constructor
      · exact alookup_aremove_self (hknd.sublist (keys_aremove_sublist uid _))
      · intro hpq
        have hpq2 : o ∈ st.queue := (removeFirst_sublist uid st.queue).subset hpq
        have := hdis o hpq2
        rw [hsym (uid, o) hmem] at this
        simp at this

/-- C3 counterexample: in the reachable state where 5 is paired with 0
(reached by requests from 0 then 5), endSession(5) fails to remove the
symmetric reverse entry: the former partner 0 is still paired afterwards,
because the reverse removal is guarded by `if other:` and 0 is falsy. -/
theorem c3_counterexample :
    (run [Op.request 0, Op.request 5]).sessions = [(5, 0), (0, 5)] ∧
    (endSession 5 (run [Op.request 0, Op.request 5])).1 = some 0 ∧
    alookup 0 (endSession 5 (run [Op.request 0, Op.request 5])).2.sessions = some 5 := by
  decide

theorem c3_witness :
    (endSession 1 ⟨[7], [(1, 2), (2, 1)]⟩).1 = some 2 ∧
    alookup 1 (endSession 1 ⟨[7], [(1, 2), (2, 1)]⟩).2.sessions = none ∧
    alookup 2 (endSession 1 ⟨[7], [(1, 2), (2, 1)]⟩).2.sessions = none := by
  have h := c3_endSession_spec 1 ⟨[7], [(1, 2), (2, 1)]⟩
    (by decide) (by decide) (by decide) (by decide) (by decide)
  refine ⟨?_, h.2.2.2.1, (h.2.2.2.2.2 2 (by decide)).1⟩
  rw [h.1]
  decide

/-- C8: requestPartner is idempotent for an already-paired user: it
returns the stored partner and leaves the whole state (queue, pairing
table, everything) completely unchanged, and a second call returns the
same partner again. -/
theorem c8_request_idempotent (uid p : Int) (st : BotState)
    (hl : alookup uid st.sessions = some p) :
    find_partner uid st = (some p, st) ∧
    find_partner uid (find_partner uid st).2 = (some p, st) := by
  have h1 := find_partner_eq_of_paired hl
  refine ⟨h1, ?_⟩
  rw [h1]
  exact h1

theorem c8_witness :
    alookup 3 (⟨[9], [(3, 4), (4, 3)]⟩ : BotState).sessions = some 4 ∧
    find_partner 3 ⟨[9], [(3, 4), (4, 3)]⟩ = (some 4, ⟨[9], [(3, 4), (4, 3)]⟩) ∧
    find_partner 3 (find_partner 3 ⟨[9], [(3, 4), (4, 3)]⟩).2 =
      (some 4, ⟨[9], [(3, 4), (4, 3)]⟩) :=
  ⟨by decide, (c8_request_idempotent 3 4 _ (by decide)).1,
    (c8_request_idempotent 3 4 _ (by decide)).2⟩

/-!
## Decimal serialization of integers

`json.dump` converts the integer keys of the `sessions` dict to decimal
strings (`str(i)`), and `load_state` converts them back with `int(k)`.
The codec below models those conversions on `List Char`.
(`int` additionally tolerates surrounding whitespace and underscore
digit separators, which no serialized snapshot ever contains; those
inputs simply fail in this model.)
-/

/-- Little-endian base-10 digits of a natural number; the fuel argument
makes the definition structurally recursive, is always instantiated with
the number itself, and any fuel of at least the number gives the digits. -/
def toDigitsRev : Nat → Nat → List Nat
  | 0, _ => []
  | fuel + 1, n => if n = 0 then [] else n % 10 :: toDigitsRev fuel (n / 10)

/-- Value of a little-endian digit list. -/
def ofDigitsLE : List Nat → Nat
  | [] => 0
  | d :: t => d + 10 * ofDigitsLE t

theorem ofDigitsLE_toDigitsRev (fuel : Nat) :
    ∀ n : Nat, n ≤ fuel → ofDigitsLE (toDigitsRev fuel n) = n := by
  induction fuel with
  | zero =>
    intro n hn
    have : n = 0 := Nat.le_zero.mp hn
    subst this
    simp [toDigitsRev, ofDigitsLE]
  | succ f ih =>
    intro n hn
    by_cases h0 : n = 0
    · subst h0
      simp [toDigitsRev, ofDigitsLE]
    · rw [toDigitsRev, if_neg h0, ofDigitsLE]
      have hdiv : n / 10 ≤ f := by
        have h1 : n / 10 < n := Nat.div_lt_self (Nat.pos_of_ne_zero h0) (by omega)
        omega
      rw [ih (n / 10) hdiv]
      omega

theorem toDigitsRev_lt (fuel : Nat) :
    ∀ n : Nat, ∀ d ∈ toDigitsRev fuel n, d < 10 := by
  induction fuel with
  | zero =>
    intro n d hd
    simp [toDigitsRev] at hd
  | succ f ih =>
    intro n d hd
    by_cases h0 : n = 0
    · subst h0
      simp [toDigitsRev] at hd
    · rw [toDigitsRev, if_neg h0] at hd
      rcases List.mem_cons.mp hd with hd | hd
      · subst hd
        exact Nat.mod_lt _ (by omega)
      · exact ih _ d hd

theorem toDigitsRev_ne_nil (fuel n : Nat) (hn : n ≠ 0) (hf : fuel ≠ 0) :
    toDigitsRev fuel n ≠ [] := by
  rcases fuel with _ | f
  · exact absurd rfl hf
  · rw [toDigitsRev, if_neg hn]
    simp

/-- The character of a single decimal digit. -/
def digitChar : Nat → Char
  | 0 => '0' | 1 => '1' | 2 => '2' | 3 => '3' | 4 => '4'
  | 5 => '5' | 6 => '6' | 7 => '7' | 8 => '8' | 9 => '9'
  | _ => '?'

/-- Partial inverse of `digitChar`. -/
def charToDigit (c : Char) : Option Nat :=
  if c = '0' then some 0 else if c = '1' then some 1
  else if c = '2' then some 2 else if c = '3' then some 3
  else if c = '4' then some 4 else if c = '5' then some 5
  else if c = '6' then some 6 else if c = '7' then some 7
  else if c = '8' then some 8 else if c = '9' then some 9
  else none

theorem charToDigit_digitChar {d : Nat} (h : d < 10) :
    charToDigit (digitChar d) = some d := by
  interval_cases d <;> decide

theorem digitChar_ne_sign {d : Nat} (h : d < 10) :
    digitChar d ≠ '-' ∧ digitChar d ≠ '+' := by
  interval_cases d <;> decide

/-- `str(n)` for a natural number. -/
def natToStr (n : Nat) : List Char :=
  if n = 0 then ['0'] else (toDigitsRev n n).reverse.map digitChar

/-- Digit-run parser: accumulates `acc * 10 + digit`, fails on the first
non-digit character. -/
def parseDigitsFrom : Nat → List Char → Option Nat
  | acc, [] => some acc
  | acc, c :: cs =>
    match charToDigit c with
    | some d => parseDigitsFrom (acc * 10 + d) cs
    | none => none

/-- `int(s)` on an unsigned decimal string: at least one digit, digits
only. -/
def parseNat : List Char → Option Nat
  | [] => none
  | c :: cs => parseDigitsFrom 0 (c :: cs)

/-- `str(i)` for a Python integer. -/
def intToStr (i : Int) : List Char :=
  if i < 0 then '-' :: natToStr i.natAbs else natToStr i.natAbs

/-- `int(s)` for a decimal string with an optional sign. -/
def strToInt (cs : List Char) : Option Int :=
  match cs with
  | [] => none
  | c :: rest =>
    if c = '-' then (parseNat rest).map (fun n => -(n : Int))
    else if c = '+' then (parseNat rest).map (fun n => (n : Int))
    else (parseNat cs).map (fun n => (n : Int))

theorem parseDigitsFrom_append (xs ys : List Char) :
    ∀ acc : Nat, parseDigitsFrom acc (xs ++ ys) =
      match parseDigitsFrom acc xs with
      | some a => parseDigitsFrom a ys
      | none => none := by
  induction xs with
  | nil => intro acc; simp [parseDigitsFrom]
  | cons c t ih =>
    intro acc
    rw [List.cons_append, parseDigitsFrom, parseDigitsFrom]
    rcases h : charToDigit c with _ | d
    · simp
    · simp only
      exact ih _

theorem parseDigitsFrom_rev_digits (l : List Nat) (hl : ∀ d ∈ l, d < 10) :
    ∀ acc : Nat, parseDigitsFrom acc (l.reverse.map digitChar) =
      some (ofDigitsLE l + acc * 10 ^ l.length) := by
  induction l with
  | nil =>
    intro acc
    simp [parseDigitsFrom, ofDigitsLE]
  | cons d t ih =>
    intro acc
    have hd : d < 10 := hl d (List.mem_cons_self d t)
    have ht : ∀ x ∈ t, x < 10 := fun x hx => hl x (List.mem_cons_of_mem d hx)
    rw [List.reverse_cons, List.map_append]
    rw [parseDigitsFrom_append]
    rw [ih ht acc]
    simp only [List.map_cons, List.map_nil, parseDigitsFrom,
      charToDigit_digitChar hd]
    rw [ofDigitsLE, List.length_cons]
    ring_nf

theorem parseNat_natToStr (n : Nat) : parseNat (natToStr n) = some n := by
  by_cases h0 : n = 0
  · subst h0
    decide
  · rw [natToStr, if_neg h0]
    have hne : (toDigitsRev n n).reverse.map digitChar ≠ [] := by
      simp [toDigitsRev_ne_nil n n h0 h0]
    rcases hcs : (toDigitsRev n n).reverse.map digitChar with _ | ⟨c, t⟩
    · exact absurd hcs hne
    · rw [parseNat, ← hcs]
      rw [parseDigitsFrom_rev_digits _ (toDigitsRev_lt n n) 0]
      rw [ofDigitsLE_toDigitsRev n n (le_refl n)]
      simp

theorem natToStr_ne_nil (n : Nat) : natToStr n ≠ [] := by
  rw [natToStr]
  by_cases h0 : n = 0
  · simp [h0]
  · rw [if_neg h0]
    intro hcontra
    rcases hx : toDigitsRev n n with _ | ⟨d, t⟩
    · exact toDigitsRev_ne_nil n n h0 h0 hx
    · rw [hx] at hcontra
      simp at hcontra

theorem natToStr_head_not_sign (n : Nat) {c : Char} {t : List Char}
    (h : natToStr n = c :: t) : c ≠ '-' ∧ c ≠ '+' := by
  by_cases h0 : n = 0
  · subst h0
    rw [natToStr] at h
    simp at h
    rw [← h.1]
    decide
  · rw [natToStr, if_neg h0] at h
    have hc : c ∈ (toDigitsRev n n).reverse.map digitChar := by
      rw [h]
      exact List.mem_cons_self c t
    rcases List.mem_map.mp hc with ⟨d, hd, hdc⟩
    have hd10 : d < 10 := toDigitsRev_lt n n d (List.mem_reverse.mp hd)
    rw [← hdc]
    exact digitChar_ne_sign hd10

/-- The serialization round trip on a single integer: parsing the printed
decimal form returns the integer (the key round trip of
`json.dump`/`load_state`). -/
theorem strToInt_intToStr (i : Int) : strToInt (intToStr i) = some i := by
  by_cases hneg : i < 0
  · rw [intToStr, if_pos hneg]
    rw [strToInt]
    rw [if_pos rfl]
    rw [parseNat_natToStr]
    show some (-(i.natAbs : Int)) = some i
    exact congrArg some (by omega)
  · rw [intToStr, if_neg hneg]
    rcases hcs : natToStr i.natAbs with _ | ⟨c, t⟩
    · exact absurd hcs (natToStr_ne_nil _)
    · have hsign := natToStr_head_not_sign i.natAbs hcs
      rw [strToInt, if_neg hsign.1, if_neg hsign.2, ← hcs]
      rw [parseNat_natToStr]
      show some ((i.natAbs : Int)) = some i
      exact congrArg some (by omega)

/-!
## Persistence: `save_state` / `load_state`

The snapshot is a JSON document. JSON values parsed by `json.load` are
modelled by `Json` below (numbers restricted to integers — the snapshots
written by `save_state` contain only integers, and no claim involves
fractional numbers). `json.dump` prints dict keys as strings, so the keys
of the serialized `sessions` object are `str(key)`; `load_state` converts
them back with `int(k)`, and converts each value with `int(v)`.
-/

inductive Json where
  | null : Json
  | bool (b : Bool) : Json
  | num (n : Int) : Json
  | str (s : List Char) : Json
  | arr (xs : List Json) : Json
  | obj (fields : List (List Char × Json)) : Json

/-- Python truthiness of a JSON-decoded value (`None`, `False`, `0`, `""`,
`[]`, `{}` are falsy). -/
def pyTruthy : Json → Bool
  | .null => false
  | .bool b => b
  | .num n => if n = 0 then false else true
  | .str s => !s.isEmpty
  | .arr xs => !xs.isEmpty
  | .obj fs => !fs.isEmpty

/-- `data.get(k, default)` on a JSON object (first occurrence of the key). -/
def jget : List (List Char × Json) → List Char → Option Json
  | [], _ => none
  | (a, v) :: t, k => if a = k then some v else jget t k

def queueKey : List Char := ['q', 'u', 'e', 'u', 'e']

def sessionsKey : List Char := ['s', 'e', 's', 's', 'i', 'o', 'n', 's']

/-- Source `save_state()`: `json.dump({"queue": queue, "sessions": sessions})`.
`json.dump` turns the integer dict keys into decimal strings. -/
def save_state (q : List Int) (sess : List (Int × Int)) : Json :=
  .obj [(queueKey, .arr (q.map .num)),
        (sessionsKey, .obj (sess.map fun p => (intToStr p.1, .num p.2)))]

/-- Python `int(v)` on a JSON-decoded value: identity on integers, decimal
parse on strings, 0/1 on booleans, `TypeError` otherwise. -/
def toIntPy : Json → Except Unit Int
  | .num n => .ok n
  | .str s =>
    match strToInt s with
    | some i => .ok i
    | none => .error ()
  | .bool b => .ok (if b then 1 else 0)
  | _ => .error ()

/-- The dict comprehension `{int(k): int(v) for k, v in raw_sessions.items()}`:
left-to-right, failing on the first non-convertible key or value,
later duplicates overwriting earlier ones (dict build-up). -/
def loadSessions : List (List Char × Json) → List (Int × Int) →
    Except Unit (List (Int × Int))
  | [], acc => .ok acc
  | (k, v) :: rest, acc =>
    match strToInt k, toIntPy v with
    | some ki, .ok vi => loadSessions rest (ainsert ki vi acc)
    | _, _ => .error ()

/-- The state read back by `load_state`. Because the code never validates
the `queue` value, the loaded `queue` global can be ANY JSON value (not
necessarily a list of integers); `sessions` is integer-converted. -/
structure LoadedState where
  queue : Json
  sessions : List (Int × Int)

/-- The startup state (also the reset state on load failure):
`queue = []`, `sessions = {}`. -/
def emptyLoaded : LoadedState := ⟨.arr [], []⟩

/-- Contents of the snapshot file: absent, unparseable bytes
(`json.load` raises), or a parsed JSON document. -/
inductive FileContent where
  | missing : FileContent
  | garbage : FileContent
  | json (j : Json) : FileContent

/-- The body of the `try` block of `load_state` on a parsed document:
`queue = data.get("queue", []) or []`,
`raw = data.get("sessions", {}) or {}`,
`sessions = {int(k): int(v) for k, v in raw.items()}`.
An `.error` models any raised exception (`.get`/`.items` on a non-dict,
failed `int()`). -/
def loadCore (j : Json) : Except Unit LoadedState :=
  match j with
  | .obj fields =>
    let q0 := (jget fields queueKey).getD (.arr [])
    let q := if pyTruthy q0 then q0 else .arr []
    let s0 := (jget fields sessionsKey).getD (.obj [])
    let s1 := if pyTruthy s0 then s0 else .obj []
    match s1 with
    | .obj pairs =>
      match loadSessions pairs [] with
      | .ok sess => .ok ⟨q, sess⟩
      | .error e => .error e
    | _ => .error ()
  | _ => .error ()

/-- Source `load_state()`, as called once at startup on the initial empty
globals: a missing file leaves the initial state, and any exception inside
the `try` resets both `queue` and `sessions` to empty. -/
def load_state : FileContent → LoadedState
  | .missing => emptyLoaded
  | .garbage => emptyLoaded
  | .json j =>
    match loadCore j with
    | .ok st => st
    | .error _ => emptyLoaded

theorem loadSessions_encoded (sess : List (Int × Int)) :
    ∀ acc : List (Int × Int), (keys (acc ++ sess)).Nodup →
      loadSessions (sess.map fun p => (intToStr p.1, .num p.2)) acc =
        .ok (acc ++ sess) := by
  induction sess with
  | nil =>
    intro acc _
    simp [loadSessions]
  | cons p t ih =>
    intro acc hnd
    obtain ⟨a, b⟩ := p
    rw [List.map_cons]
    rw [loadSessions]
    rw [strToInt_intToStr a]
    show loadSessions _ (ainsert a b acc) = _
    have hmid : (keys (acc ++ (a, b) :: t)).Nodup := hnd
    rw [show keys (acc ++ (a, b) :: t) = keys acc ++ a :: keys t by simp [keys]] at hmid
    have hperm : (keys acc ++ a :: keys t).Perm (a :: (keys acc ++ keys t)) :=
      List.perm_middle
    have hnd2 : (a :: (keys acc ++ keys t)).Nodup := hperm.nodup hmid
    have hna : a ∉ keys acc := fun hmem =>
      (List.nodup_cons.mp hnd2).1 (List.mem_append_left _ hmem)
    rw [ainsert_of_not_mem _ hna]
    have hnd3 : (keys ((acc ++ [(a, b)]) ++ t)).Nodup := by
      have : (acc ++ [(a, b)]) ++ t = acc ++ ((a, b) :: t) := by simp
      rw [this]
      exact hnd
    rw [ih (acc ++ [(a, b)]) hnd3]
    simp

/-- C4: persist followed by restore is lossless: loading the JSON document
written by `save_state` reproduces exactly the saved queue (as the JSON
array of its integers, which is what `json.load` hands back) and exactly
the saved sessions table, for every queue and every duplicate-key-free
sessions table (every Python dict is duplicate-key-free). -/
theorem c4_save_load_roundtrip (q : List Int) (sess : List (Int × Int))
    (hnd : (keys sess).Nodup) :
    load_state (.json (save_state q sess)) = ⟨.arr (q.map .num), sess⟩ := by
  have hq : jget [(queueKey, Json.arr (q.map .num)),
      (sessionsKey, .obj (sess.map fun p => (intToStr p.1, .num p.2)))]
      queueKey = some (.arr (q.map .num)) := by
    rw [jget, if_pos rfl]
  have hs : jget [(queueKey, Json.arr (q.map .num)),
      (sessionsKey, .obj (sess.map fun p => (intToStr p.1, .num p.2)))]
      sessionsKey = some (.obj (sess.map fun p => (intToStr p.1, .num p.2))) := by
    rw [jget, if_neg (by decide), jget, if_pos rfl]
  have hload := loadSessions_encoded sess [] (by simpa using hnd)
  simp only [List.nil_append] at hload
  have hqv : (if pyTruthy (Json.arr (q.map .num)) then Json.arr (q.map .num)
      else .arr []) = Json.arr (q.map .num) := by
    rcases q with _ | ⟨x, xs⟩
    · simp [pyTruthy]
    · simp [pyTruthy]
  have hsv : (if pyTruthy (Json.obj (sess.map fun p => (intToStr p.1, .num p.2)))
      then Json.obj (sess.map fun p => (intToStr p.1, .num p.2))
      else .obj []) = Json.obj (sess.map fun p => (intToStr p.1, .num p.2)) := by
    rcases sess with _ | ⟨y, ys⟩
    · simp [pyTruthy]
    · simp [pyTruthy]
  simp only [load_state, save_state, loadCore, hq, hs, Option.getD_some,
    hqv, hsv, hload]

theorem c4_witness :
    (keys [((1 : Int), (2 : Int)), (2, 1)]).Nodup ∧
    load_state (.json (save_state [3, -7] [(1, 2), (2, 1)])) =
      ⟨.arr ([3, -7].map Json.num), [(1, 2), (2, 1)]⟩ :=
  ⟨by decide, c4_save_load_roundtrip [3, -7] [(1, 2), (2, 1)] (by decide)⟩

/-- C5 (amended): restore never propagates an error — a missing file, an
unparseable snapshot, and any document on which the load body raises
(non-object top level, non-object truthy sessions value, or a sessions
entry that fails integer conversion) all yield the empty queue and empty
table, and a document the load body accepts loads completely. HOWEVER,
contrary to the original claim, the queue value is NOT validated: a
malformed queue (wrong shape or non-integer entries) is loaded as-is, see
the counterexample. -/
theorem c5_load_never_propagates :
    load_state .missing = emptyLoaded ∧
    load_state .garbage = emptyLoaded ∧
    (∀ j : Json, loadCore j = .error () → load_state (.json j) = emptyLoaded) ∧
    (∀ (j : Json) (st : LoadedState), loadCore j = .ok st →
      load_state (.json j) = st) := by
  refine ⟨rfl, rfl, ?_, ?_⟩
  · intro j h
    simp [load_state, h]
  · intro j st h
    simp [load_state, h]

theorem c5_witness : load_state (.json (Json.num 3)) = emptyLoaded :=
  c5_load_never_propagates.2.2.1 (Json.num 3) rfl

/-- A parseable snapshot whose queue value fails validation (it contains a
non-integer entry) while the sessions value is fine. -/
def badSnapshot : Json := .obj [(queueKey, .arr [.str ['a']]), (sessionsKey, .obj [])]

/-- C5 counterexample: on `{"queue": ["a"], "sessions": {}}` the load body
raises nothing — the string `"a"` is stored into the queue unvalidated —
so the loaded state is NOT the empty state that the claim requires for
data failing validation. -/
theorem c5_counterexample :
    load_state (.json badSnapshot) = ⟨.arr [.str ['a']], []⟩ ∧
    (load_state (.json badSnapshot)).queue ≠ emptyLoaded.queue := by
  have h1 : load_state (.json badSnapshot) = ⟨.arr [.str ['a']], []⟩ := rfl
  refine ⟨h1, ?_⟩
  rw [h1]
  simp [emptyLoaded]

/-!
## Rate limiter

`rate_limited` with `time.time()` modelled as a rational argument. The
rate-limit ledger `last_time` is a dict from user id to timestamp.
-/

abbrev Ledger := List (Int × ℚ)

/-- `RATE_LIMIT = 1.3` seconds. -/
def RATE_LIMIT : ℚ := 13 / 10

/-- Source `rate_limited(uid)`:
`last = last_time.get(uid)`;
`if last and (now - last) < RATE_LIMIT: return True`;
`last_time[uid] = now; return False`.
The Python truthiness `if last and ...` makes a stored timestamp `0`
behave like a missing entry. -/
def rate_limited (uid : Int) (now : ℚ) (led : Ledger) : Bool × Ledger :=
  match alookup uid led with
  | some last =>
    if last ≠ 0 ∧ now - last < RATE_LIMIT then (true, led)
    else (false, ainsert uid now led)
  | none => (false, ainsert uid now led)

/-- C6 (amended): `rate_limited U now` returns true exactly when a stored
last-action timestamp exists for U, is NONZERO, and `now` minus it is
below 1.3 s; a throttled call leaves the ledger unchanged; a non-throttled
call (and only such a call) sets the stored timestamp of U to `now`; and no
call ever changes the entry of another user, so one user never throttles
another. (As originally stated — any stored timestamp, including a stored
`0` — the claim is false, see the counterexample.) -/
theorem c6_rate_limited_spec (uid : Int) (now : ℚ) (led : Ledger) :
    ((rate_limited uid now led).1 = true ↔
      ∃ t, alookup uid led = some t ∧ t ≠ 0 ∧ now - t < RATE_LIMIT) ∧
    ((rate_limited uid now led).1 = true → (rate_limited uid now led).2 = led) ∧
    ((rate_limited uid now led).1 = false →
      (rate_limited uid now led).2 = ainsert uid now led ∧
      alookup uid (rate_limited uid now led).2 = some now) ∧
    (∀ v : Int, v ≠ uid → alookup v (rate_limited uid now led).2 = alookup v led) := by
  rcases hl : alookup uid led with _ | t
  · have he : rate_limited uid now led = (false, ainsert uid now led) := by
      simp only [rate_limited, hl]
    rw [he]
    refine ⟨?_, ?_, ?_, ?_⟩
    · constructor
      · intro h
        simp at h
      · rintro ⟨t, ht, _, _⟩
        simp at ht
    · intro h
      simp at h
    · intro _
      exact ⟨rfl, alookup_ainsert_self uid now led⟩
    · intro v hv
      exact alookup_ainsert_of_ne now led hv
  · by_cases hc : t ≠ 0 ∧ now - t < RATE_LIMIT
    · have he : rate_limited uid now led = (true, led) := by
        simp only [rate_limited, hl, if_pos hc]
      rw [he]
      refine ⟨?_, fun _ => rfl, ?_, fun v hv => rfl⟩
      · constructor
        · intro _
          exact ⟨t, rfl, hc.1, hc.2⟩
        · intro _
          rfl
      · intro h
        simp at h
    · have he : rate_limited uid now led = (false, ainsert uid now led) := by
        simp only [rate_limited, hl, if_neg hc]
      rw [he]
      refine ⟨?_, ?_, ?_, ?_⟩
      · constructor
        · intro h
          simp at h
        · rintro ⟨t2, ht2, h1, h2⟩
          injection ht2 with ht2
          subst ht2
          exact absurd ⟨h1, h2⟩ hc
      · intro h
        simp at h
      · intro _
        exact ⟨rfl, alookup_ainsert_self uid now led⟩
      · intro v hv
        exact alookup_ainsert_of_ne now led hv

/-- C6 counterexample: a first action at time 0 stores timestamp 0.
At time 1/2 a timestamp IS stored for user 7 and the elapsed time 1/2 is
below 1.3 s, yet `rate_limited` returns false — the stored 0 is falsy in
`if last and ...`, so the user is not throttled as the claim requires. -/
theorem c6_counterexample :
    rate_limited 7 0 [] = (false, [(7, 0)]) ∧
    alookup 7 [((7 : Int), (0 : ℚ))] = some 0 ∧
    ((1 : ℚ) / 2 - 0 < RATE_LIMIT) ∧
    (rate_limited 7 (1 / 2) [(7, 0)]).1 = false := by
  refine ⟨?_, ?_, ?_, ?_⟩
  · simp [rate_limited, alookup, ainsert]
  · simp [alookup]
  · norm_num [RATE_LIMIT]
  · simp [rate_limited, alookup]

theorem c6_witness :
    alookup 9 (rate_limited 7 (1 / 2) [((9 : Int), (5 : ℚ))]).2 =
      alookup 9 [((9 : Int), (5 : ℚ))] :=
  (c6_rate_limited_spec 7 (1 / 2) [(9, 5)]).2.2.2 9 (by decide)

/-!
## The non-command message dispatcher (`handle_all_messages`)

An inbound non-command message is classified and routed: (1) media
attachments are forwarded to `GROUP_ID` when configured, (2) the message
is relayed to the partner subject to the rate limiter, (3) an unpaired
sender is prompted to connect. We model the transport calls as an emitted
effect list; the `forwardOk`/`relayOk` flags say whether the corresponding
transport call raises (the call itself is always attempted first, then a
failure additionally notifies the admins). -/

/-- An inbound non-command message, with the attachment flags the
dispatcher tests. -/
structure Msg where
  text : Option (List Char)
  photo : Bool
  video : Bool
  audio : Bool
  voice : Bool
  document : Bool
  sticker : Bool
  animation : Bool
  video_note : Bool

/-- `bool(msg.photo) or bool(msg.video) or ...` of the source. -/
def hasAttachment (m : Msg) : Bool :=
  m.photo || m.video || m.audio || m.voice || m.document ||
  m.sticker || m.animation || m.video_note

/-- Configuration: the moderation destination `GROUP_ID` (as parsed at
startup: `None` when the env var is empty) and the admin id list. -/
structure Config where
  groupId : Option Int
  admins : List Int

/-- The transport calls the dispatcher can make, in program order. -/
inductive Effect where
  | forwardAttempt (gid : Int) : Effect
  | adminMsg (adm : Int) : Effect
  | copyAttempt (target : Int) : Effect
  | typingSignal (target : Int) : Effect
  | connectPrompt (target : Int) : Effect
  | menu (target : Int) : Effect
deriving DecidableEq

/-- `notify_admins`: one send per configured admin (none when the admin
list is empty). -/
def notify_admins (cfg : Config) : List Effect :=
  cfg.admins.map .adminMsg

/-- The guard `if msg.text and msg.text.startswith("/")`: true only for a
present, non-empty text whose first character is a slash. -/
def isCommandText : Option (List Char) → Bool
  | none => false
  | some [] => false
  | some (c :: _) => c = '/'

/-- Step 1 of the dispatcher: `if GROUP_ID and has_attachment: forward`.
The Python truthiness of `GROUP_ID` makes a configured destination 0
behave like no destination. A raised forward is caught and reported to
the admins. -/
def mirrorEffects (cfg : Config) (m : Msg) (forwardOk : Bool) : List Effect :=
  match cfg.groupId with
  | some g =>
    if g ≠ 0 ∧ hasAttachment m = true then
      if forwardOk then [.forwardAttempt g]
      else .forwardAttempt g :: notify_admins cfg
    else []
  | none => []

/-- Steps 2 and 3 of the dispatcher: relay to the partner under the rate
limiter (`sessions.get(uid)` equals the membership lookup, nothing mutates
in between), else prompt to connect. A raised copy is caught and reported
to the admins. -/
def relayEffects (cfg : Config) (uid : Int) (st : BotState) (led : Ledger)
    (now : ℚ) (relayOk : Bool) : List Effect × Ledger :=
  match alookup uid st.sessions with
  | some partner =>
    let r := rate_limited uid now led
    if r.1 then ([.typingSignal uid], r.2)
    else if partner ≠ 0 then
      (if relayOk then [.copyAttempt partner]
       else .copyAttempt partner :: notify_admins cfg, r.2)
    else ([], r.2)
  | none => ([.connectPrompt uid, .menu uid], led)

/-- The observable outcome of one dispatch: the transport calls made, the
(unchanged) engine state, and the rate-limit ledger. -/
structure DispatchResult where
  effects : List Effect
  state : BotState
  ledger : Ledger

/-- Source `handle_all_messages`: ignore slash-texts, then mirror, then
relay-or-prompt. The queue and the pairing table are never written. -/
def handle_all_messages (cfg : Config) (m : Msg) (uid : Int) (st : BotState)
    (led : Ledger) (now : ℚ) (forwardOk relayOk : Bool) : DispatchResult :=
  if isCommandText m.text then ⟨[], st, led⟩
  else
    let rel := relayEffects cfg uid st led now relayOk
    ⟨mirrorEffects cfg m forwardOk ++ rel.1, st, rel.2⟩

/-- C7 (amended): for a non-command message carrying an attachment, with
the moderation destination configured AND NONZERO, the dispatcher emits
the forward to that destination — whatever the pairing/queue state, the
ledger, and the forward/relay outcomes; the mirror step never touches the
rate-limit ledger (the resulting ledger is exactly that of the relay step); and
the relay step runs identically whether or not the mirror fails. (As
originally stated — any configured destination, hence also 0 — the claim
is false, see the counterexample.) -/
theorem c7_mirror_independent (cfg : Config) (m : Msg) (uid : Int)
    (st : BotState) (led : Ledger) (now : ℚ) (fOk rOk : Bool) (g : Int)
    (hcmd : isCommandText m.text = false)
    (hatt : hasAttachment m = true)
    (hg : cfg.groupId = some g) (hgz : g ≠ 0) :
    Effect.forwardAttempt g ∈
      (handle_all_messages cfg m uid st led now fOk rOk).effects ∧
    (handle_all_messages cfg m uid st led now fOk rOk).ledger =
      (relayEffects cfg uid st led now rOk).2 ∧
    (handle_all_messages cfg m uid st led now fOk rOk).effects =
      mirrorEffects cfg m fOk ++ (relayEffects cfg uid st led now rOk).1 ∧
    (handle_all_messages cfg m uid st led now fOk rOk).state = st := by
  have hm : Effect.forwardAttempt g ∈ mirrorEffects cfg m fOk := by
    simp only [mirrorEffects, hg]
    rw [if_pos ⟨hgz, hatt⟩]
    cases fOk <;> simp
  have he : handle_all_messages cfg m uid st led now fOk rOk =
      ⟨mirrorEffects cfg m fOk ++ (relayEffects cfg uid st led now rOk).1, st,
       (relayEffects cfg uid st led now rOk).2⟩ := by
    rw [handle_all_messages, if_neg (by simp [hcmd])]
  rw [he]
  exact ⟨List.mem_append_left _ hm, rfl, rfl, rfl⟩

/-- C7 counterexample: with the moderation destination configured as 0
(`GROUP_ID=0` in the environment parses to the integer 0), a photo from
user 5 produces NO forward at all — `if GROUP_ID and has_attachment`
treats the destination 0 as unconfigured. -/
theorem c7_counterexample :
    handle_all_messages ⟨some 0, []⟩
      ⟨none, true, false, false, false, false, false, false, false⟩
      5 ⟨[], []⟩ [] 0 true true =
      ⟨[.connectPrompt 5, .menu 5], ⟨[], []⟩, []⟩ ∧
    Effect.forwardAttempt 0 ∉
      (handle_all_messages ⟨some 0, []⟩
        ⟨none, true, false, false, false, false, false, false, false⟩
        5 ⟨[], []⟩ [] 0 true true).effects := by
  have h1 : handle_all_messages ⟨some 0, []⟩
      ⟨none, true, false, false, false, false, false, false, false⟩
      5 ⟨[], []⟩ [] 0 true true =
      ⟨[.connectPrompt 5, .menu 5], ⟨[], []⟩, []⟩ := by
    rw [handle_all_messages]
    simp [isCommandText, mirrorEffects, relayEffects, alookup]
  refine ⟨h1, ?_⟩
  rw [h1]
  decide

theorem c7_witness :
    Effect.forwardAttempt 42 ∈
      (handle_all_messages ⟨some 42, [8]⟩
        ⟨none, true, false, false, false, false, false, false, false⟩
        5 ⟨[], []⟩ [] 0 false true).effects :=
  (c7_mirror_independent ⟨some 42, [8]⟩
    ⟨none, true, false, false, false, false, false, false, false⟩
    5 ⟨[], []⟩ [] 0 false true 42 rfl rfl rfl (by decide)).1

/-- C9: a non-command message from a user with no partner produces the
connect prompt (and the menu), and leaves the engine state and the
rate-limit ledger untouched — the sender is never enqueued by merely
sending a message. (The attachment mirror may additionally run first;
it affects neither state nor ledger.) -/
theorem c9_unpaired_prompt (cfg : Config) (m : Msg) (uid : Int)
    (st : BotState) (led : Ledger) (now : ℚ) (fOk rOk : Bool)
    (hcmd : isCommandText m.text = false)
    (hun : alookup uid st.sessions = none) :
    handle_all_messages cfg m uid st led now fOk rOk =
      ⟨mirrorEffects cfg m fOk ++ [.connectPrompt uid, .menu uid], st, led⟩ ∧
    Effect.connectPrompt uid ∈
      (handle_all_messages cfg m uid st led now fOk rOk).effects ∧
    (handle_all_messages cfg m uid st led now fOk rOk).state = st ∧
    (handle_all_messages cfg m uid st led now fOk rOk).ledger = led := by
  have hrel : relayEffects cfg uid st led now rOk =
      ([.connectPrompt uid, .menu uid], led) := by
    rw [relayEffects, hun]
  have he : handle_all_messages cfg m uid st led now fOk rOk =
      ⟨mirrorEffects cfg m fOk ++ [.connectPrompt uid, .menu uid], st, led⟩ := by
    rw [handle_all_messages, if_neg (by simp [hcmd])]
    rw [hrel]
  rw [he]
  refine ⟨rfl, ?_, rfl, rfl⟩
  exact List.mem_append_right _ (List.mem_cons_self _ _)

theorem c9_witness :
    handle_all_messages ⟨none, []⟩
      ⟨some ['h', 'i'], false, false, false, false, false, false, false, false⟩
      9 ⟨[4], [(1, 2), (2, 1)]⟩ [(9, 5)] 6 true true =
      ⟨mirrorEffects ⟨none, []⟩
        ⟨some ['h', 'i'], false, false, false, false, false, false, false, false⟩
        true ++ [.connectPrompt 9, .menu 9],
       ⟨[4], [(1, 2), (2, 1)]⟩, [(9, 5)]⟩ :=
  (c9_unpaired_prompt ⟨none, []⟩
    ⟨some ['h', 'i'], false, false, false, false, false, false, false, false⟩
    9 ⟨[4], [(1, 2), (2, 1)]⟩ [(9, 5)] 6 true true rfl (by decide)).1

/-- C10: a non-command update whose text begins with a slash makes the
dispatcher return immediately: no mirror (even with an attachment and a
configured destination), no relay (even when paired), no prompt, and no
change to state or ledger. -/
theorem c10_slash_text_ignored (cfg : Config) (m : Msg) (uid : Int)
    (st : BotState) (led : Ledger) (now : ℚ) (fOk rOk : Bool)
    (t : List Char) (htext : m.text = some ('/' :: t)) :
    handle_all_messages cfg m uid st led now fOk rOk = ⟨[], st, led⟩ := by
  rw [handle_all_messages, htext]
  rw [if_pos (by simp [isCommandText])]

theorem c10_witness :
    handle_all_messages ⟨some 42, [8]⟩
      ⟨some ['/', 'x'], true, false, false, false, false, false, false, false⟩
      5 ⟨[], [(5, 6), (6, 5)]⟩ [] 0 true true =
      ⟨[], ⟨[], [(5, 6), (6, 5)]⟩, []⟩ :=
  c10_slash_text_ignored ⟨some 42, [8]⟩
    ⟨some ['/', 'x'], true, false, false, false, false, false, false, false⟩
    5 ⟨[], [(5, 6), (6, 5)]⟩ [] 0 true true ['x'] rfl

end Bot
